import Mathlib

/-!
Verification development for the TFT two-level composition clustering engine
(`clustering.py` and its database companion).  The Python code is shallowly
embedded: unit identifiers (strings in the source, inspected only up to
equality) are modelled as natural numbers, carry sets (`frozenset`) as
`Finset ℕ`, and the floating-point similarity/statistics arithmetic is
modelled exactly over `ℚ` (the real-number semantics of the formulas in the
source).  Fallible dictionary access is modelled with `Except`.
-/

namespace TFT

/-- Embedding of `TFTClusteringEngine._calculate_carry_similarity`
(clustering.py lines 268-297).  Returns 0 when either set is empty
(`if not carries1 or not carries2`) or the intersection is empty; otherwise
the Jaccard coefficient (guarded by `union_size > 0` as in the source) plus
a bonus of 0.3 for 2-3 common carries, 0.1 for exactly 1, and -0.1
otherwise, clipped above at 1.0. -/
def calcCarrySimilarity (carries1 carries2 : Finset ℕ) : ℚ :=
  if carries1 = ∅ ∨ carries2 = ∅ then 0
  else
    let common_carries := carries1 ∩ carries2
    let common_count := common_carries.card
    if common_count = 0 then 0
    else
      let union_size := (carries1 ∪ carries2).card
      let jaccard : ℚ := if 0 < union_size then (common_count : ℚ) / (union_size : ℚ) else 0
      let bonus : ℚ :=
        if 2 ≤ common_count ∧ common_count ≤ 3 then 3/10
        else if common_count = 1 then 1/10
        else -1/10
      min 1 (jaccard + bonus)

/-- The similarity scorer exactly as the specification words it (§4.3):
0 when either set or the intersection is empty, otherwise
`min(1.0, |A∩B|/|A∪B| + adjustment)` with adjustment +0.3 for exactly 2 or 3
shared units, +0.1 for exactly 1, and -0.1 for 4 or more.  Used only to be
compared against `calcCarrySimilarity`, the embedding of the source. -/
def similaritySpec (A B : Finset ℕ) : ℚ :=
  if A = ∅ ∨ B = ∅ ∨ A ∩ B = ∅ then 0
  else
    let inter := (A ∩ B).card
    let adjustment : ℚ :=
      if inter = 2 ∨ inter = 3 then 3/10
      else if inter = 1 then 1/10
      else -1/10
    min 1 ((inter : ℚ) / ((A ∪ B).card : ℚ) + adjustment)

/-- One entry of a participant `units` list as the Python code reads it:
`character_id` is `none` when the key is missing from the unit dict, and
`itemNames` is `none` when that key is missing (the source reads it with
`unit.get('itemNames', [])`).  Item names themselves are never inspected,
only counted, so they are modelled as naturals. -/
structure RawUnit where
  character_id : Option ℕ
  itemNames : Option (List ℕ)
deriving DecidableEq, Repr

/-- The slice of a participant dict read by carry extraction: the `units`
key, `none` when absent (the source reads it with
`participant.get('units', [])`). -/
structure RawParticipant where
  units : Option (List RawUnit)
deriving DecidableEq, Repr

/-- Embedding of `TFTClusteringEngine.extract_carry_units`
(clustering.py lines 80-94): build the frozenset of `unit['character_id']`
over units with `len(unit.get('itemNames', [])) >= 2`.  The subscript
`unit['character_id']` raises `KeyError` when the key is missing, which the
embedding surfaces as `Except.error`; with no qualifying unit lacking the
key it returns the finite set of the qualifying identifiers. -/
def extract_carry_units (participant : RawParticipant) :
    Except String (Finset ℕ) :=
  let qualifying :=
    (participant.units.getD []).filter fun u => decide (2 ≤ (u.itemNames.getD []).length)
  match qualifying.find? (fun u => u.character_id.isNone) with
  | some _ => .error "KeyError"
  | none => .ok (qualifying.filterMap (fun u => u.character_id)).toFinset

/-- Embedding of the `Composition` dataclass, restricted to the fields the
clustering algorithm reads: the carry set, the placement (the only key of
`participant_data` that sub-clustering reads), and the two mutable cluster
assignment fields (`None` initially, modelled as `Option`).  The purely
descriptive identifier fields are collapsed into one numeric tag. -/
structure Composition where
  comp_id : ℕ
  carries : Finset ℕ
  placement : ℕ
  sub_cluster_id : Option ℕ := none
  main_cluster_id : Option ℕ := none
deriving DecidableEq

/-- Embedding of the `SubCluster` dataclass (clustering.py lines 53-62). -/
structure SubCluster where
  id : ℕ
  carry_set : Finset ℕ
  compositions : List Composition
  size : ℕ
  avg_placement : ℚ
  winrate : ℚ
  top4_rate : ℚ
deriving DecidableEq

/-- Rounding half to even of a rational, the semantics of Python round
applied to an exactly represented value. -/
def roundHalfEven (q : ℚ) : ℤ :=
  let f := ⌊q⌋
  let r := q - f
  if r < 1/2 then f
  else if 1/2 < r then f + 1
  else if f % 2 = 0 then f else f + 1

/-- Python `round(q, 2)` over the exact rational semantics. -/
def pyRound2 (q : ℚ) : ℚ := (roundHalfEven (q * 100) : ℚ) / 100

/-- The distinct carry sets of a composition list in first-encounter order:
the key sequence of the `defaultdict(list)` built by
`TFTClusteringEngine.create_sub_clusters` (clustering.py lines 176-178),
whose iteration order is Python dict insertion order. -/
def distinctCarrySets (comps : List Composition) : List (Finset ℕ) :=
  comps.foldl (fun acc c => if c.carries ∈ acc then acc else acc ++ [c.carries]) []

/-- The `carry_groups` mapping of `create_sub_clusters` as an association
list in key first-encounter order: each distinct carry set paired with the
members holding exactly that carry set, in input order. -/
def carryGroups (comps : List Composition) : List (Finset ℕ × List Composition) :=
  (distinctCarrySets comps).map fun s => (s, comps.filter fun c => decide (c.carries = s))

/-- The `SubCluster` literal built inside `create_sub_clusters`
(clustering.py lines 184-200): statistics over the member list with the
arithmetic carried out exactly over rationals and rounded to 2 decimals. -/
def mkSubCluster (i : ℕ) (s : Finset ℕ) (ms : List Composition) : SubCluster :=
  { id := i
    carry_set := s
    compositions := ms
    size := ms.length
    avg_placement := pyRound2 ((ms.map fun c => (c.placement : ℚ)).sum / (ms.length : ℚ))
    winrate := pyRound2 (((ms.countP fun c => decide (c.placement = 1)) : ℚ) / (ms.length : ℚ) * 100)
    top4_rate := pyRound2 (((ms.countP fun c => decide (c.placement ≤ 4)) : ℚ) / (ms.length : ℚ) * 100) }

/-- Embedding of `TFTClusteringEngine.create_sub_clusters`
(clustering.py lines 171-209): groups whose size reaches the minimum become
sub-clusters, numbered sequentially in first-encounter order. -/
def createSubClusters (minSize : ℕ) (comps : List Composition) : List SubCluster :=
  (((carryGroups comps).filter fun p => decide (minSize ≤ p.2.length)).enum).map
    fun p => mkSubCluster p.1 p.2.1 p.2.2

/-- The composition-level effect of `create_sub_clusters`: each composition
in a retained group receives that sub-cluster id (clustering.py lines
202-204), the rest keep their sentinel.  Because the groups partition the
input by exact carry set, the sub-cluster a composition joined is the unique
one whose carry set equals its own. -/
def assignSubClusterIds (minSize : ℕ) (comps : List Composition) : List Composition :=
  let scs := createSubClusters minSize comps
  comps.map fun c =>
    match scs.find? (fun sc => decide (sc.carry_set = c.carries)) with
    | some sc => { c with sub_cluster_id := some sc.id }
    | none => c

/-- The valid-label filtering of `TFTClusteringEngine.create_main_clusters`
(clustering.py lines 248-259) applied to the flat labels returned by the
external agglomerative-merge library: `labels` has one entry per sub-cluster
in list order (the fit output over the distance matrix, which the
specification itself treats as an external library call), `labels.count m`
is therefore the member count of merge group `m`, and a pair
`(sub_cluster_id, main_cluster_id)` enters `main_cluster_assignments` only
when that count reaches the minimum. -/
def mainClusterAssignments (subClusters : List SubCluster) (labels : List ℕ)
    (minMain : ℕ) : List (ℕ × ℕ) :=
  (subClusters.zip labels).filterMap fun p =>
    if minMain ≤ labels.count p.2 then some (p.1.id, p.2) else none

/-- The composition-level effect of `create_main_clusters` (clustering.py
lines 256-263): members of a sub-cluster whose merge-group label is valid
receive that label as main-cluster id, every other composition is left
untouched.  After sub-clustering, member lists are pairwise disjoint, so at
most one branch of the scan applies to a composition. -/
def applyMainClusterIds (subClusters : List SubCluster) (labels : List ℕ)
    (minMain : ℕ) (comps : List Composition) : List Composition :=
  comps.map fun c =>
    match (subClusters.zip labels).find?
        (fun p => decide (c ∈ p.1.compositions) && decide (minMain ≤ labels.count p.2)) with
    | some p => { c with main_cluster_id := some p.2 }
    | none => c

/-- The opaque payload of `get_database_cluster_stats`, read but never
inspected by the incremental pipeline. -/
structure DatabaseStats where
  payload : ℕ
deriving DecidableEq

/-- The shapes of dictionary `run_incremental_clustering_pipeline` can
return on its early paths: the empty summary carrying database statistics
and a zero `total_compositions` under `pipeline_stats`, the bare-message
summary used when reading statistics fails, the result of the full
clustering pipeline, and the error dictionary. -/
inductive PipelineSummary where
  | emptyWithStats (total_compositions : ℕ) (dbStats : DatabaseStats) (message : String)
  | emptyNoStats (message : String)
  | fullRun (payload : ℕ)
  | failed (error : String)
deriving DecidableEq

/-- Embedding of `run_incremental_clustering_pipeline`
(clustering.py lines 549-624) with its store calls passed in as values:
`get_unclustered_matches` is the id list the store reports,
`get_database_cluster_stats` is `none` when that call raises (the
`except Exception` branch at line 594), and `run_database_clustering` stands
for the full clustering pipeline invoked on the surviving paths (on the
force path after clearing existing clusters, argument `none`; on the
incremental path with the unclustered ids spliced into the filters). -/
def run_incremental_clustering_pipeline (force_recluster : Bool)
    (get_unclustered_matches : List ℕ)
    (get_database_cluster_stats : Option DatabaseStats)
    (run_database_clustering : Option (List ℕ) → PipelineSummary) : PipelineSummary :=
  if force_recluster = false then
    if get_unclustered_matches.isEmpty then
      match get_database_cluster_stats with
      | some db => .emptyWithStats 0 db "No new matches to cluster"
      | none => .emptyNoStats "No new matches to cluster"
    else run_database_clustering (some get_unclustered_matches)
  else run_database_clustering none

/-- Scenario A input of the specification: six compositions with the same
singleton carry set, every one finishing first. -/
def scenarioA : List Composition :=
  (List.range 6).map fun i => { comp_id := i, carries := {0}, placement := 1 }

/-- A single concrete composition used to instantiate the invariant
theorems. -/
def demoComp : Composition := { comp_id := 0, carries := {0}, placement := 1 }

/-- Five compositions sharing one carry set, exactly the default minimum
sub-cluster size. -/
def demoComps : List Composition :=
  (List.range 5).map fun i => { comp_id := i, carries := {0}, placement := 1 }

/-- `demoComp` as it comes out of sub-cluster assignment over `demoComps`
with minimum size 5: tagged with sub-cluster id 0. -/
def demoAssigned : Composition :=
  { comp_id := 0, carries := {0}, placement := 1, sub_cluster_id := some 0 }

/-- A concrete one-member sub-cluster for instantiating the main-cluster
filtering theorem. -/
def demoSubCluster : SubCluster := mkSubCluster 0 {0} [demoComp]

/-- `demoComp` as it comes out of main-cluster assignment with label list
`[0]` and minimum main size 1: tagged with main-cluster id 0. -/
def demoMainAssigned : Composition :=
  { comp_id := 0, carries := {0}, placement := 1, main_cluster_id := some 0 }

theorem distinctCarrySets_nodup (comps : List Composition) :
    (distinctCarrySets comps).Nodup := by
  suffices h : ∀ acc : List (Finset ℕ), acc.Nodup →
      (comps.foldl
        (fun acc c => if c.carries ∈ acc then acc else acc ++ [c.carries]) acc).Nodup by
    exact h [] List.nodup_nil
  induction comps with
  | nil => intro acc hacc; simpa using hacc
  | cons c cs ih =>
    intro acc hacc
    simp only [List.foldl_cons]
    by_cases hc : c.carries ∈ acc
    · rw [if_pos hc]; exact ih acc hacc
    · rw [if_neg hc]
      exact ih _ (by simp [List.nodup_append, hacc, hc])

theorem snd_mem_of_mem_enum {α : Type} {l : List α} {p : ℕ × α} (h : p ∈ l.enum) :
    p.2 ∈ l :=
  List.getElem?_mem (List.mem_enum_iff_getElem?.mp h)

theorem mem_createSubClusters {minSize : ℕ} {comps : List Composition} {sc : SubCluster}
    (h : sc ∈ createSubClusters minSize comps) :
    sc.carry_set ∈ distinctCarrySets comps ∧
    sc.compositions = comps.filter (fun c => decide (c.carries = sc.carry_set)) ∧
    minSize ≤ sc.compositions.length := by
  unfold createSubClusters at h
  rcases List.mem_map.mp h with ⟨p, hp, rfl⟩
  have hp2 : p.2 ∈ (carryGroups comps).filter (fun q => decide (minSize ≤ q.2.length)) :=
    snd_mem_of_mem_enum hp
  have hfilt := List.mem_filter.mp hp2
  have hsize : minSize ≤ p.2.2.length := of_decide_eq_true hfilt.2
  unfold carryGroups at hfilt
  rcases List.mem_map.mp hfilt.1 with ⟨s, hs, hps⟩
  refine ⟨?_, ?_, hsize⟩
  · show p.2.1 ∈ _
    rw [← hps]
    exact hs
  · show p.2.2 = comps.filter (fun c => decide (c.carries = p.2.1))
    rw [← hps]

theorem pyRound2_intCast (n : ℤ) : pyRound2 ((n : ℚ)) = n := by
  unfold pyRound2 roundHalfEven
  have h : ((n : ℚ)) * 100 = (((n * 100 : ℤ) : ℚ)) := by push_cast; ring
  rw [h, Int.floor_intCast]
  norm_num

/-- C2: carry extraction is claimed never to raise on malformed per-unit
data.  The code disagrees: a unit holding two items but no `character_id`
key makes `unit['character_id']` raise `KeyError`.  This theorem evaluates
the embedding at that failing input and also records the parts of the claim
the code does satisfy: an empty unit list, or a missing `units` key, yields
an empty carry set without error. -/
theorem extract_carry_units_missing_id :
    extract_carry_units ⟨some [⟨none, some [0, 1]⟩]⟩ = Except.error "KeyError" ∧
    extract_carry_units ⟨some []⟩ = Except.ok ∅ ∧
    extract_carry_units ⟨none⟩ = Except.ok ∅ :=
  ⟨rfl, rfl, rfl⟩

/-- C3: there is a pair of non-empty carry sets sharing 4 or more units
whose similarity is strictly negative, making the derived distance
`1 - similarity` exceed 1.  Witnessed by a 41-element set against a
4-element subset: Jaccard 4/41 plus the flat -0.1 penalty is -1/410. -/
theorem similarity_below_zero :
    ∃ A B : Finset ℕ, A ≠ ∅ ∧ B ≠ ∅ ∧ 4 ≤ (A ∩ B).card ∧
      calcCarrySimilarity A B < 0 ∧ 1 < 1 - calcCarrySimilarity A B := by
  have hI : Finset.range 41 ∩ Finset.range 4 = Finset.range 4 := by decide
  have hU : Finset.range 41 ∪ Finset.range 4 = Finset.range 41 := by decide
  have hne : ¬(Finset.range 41 = ∅ ∨ Finset.range 4 = ∅) := by decide
  have hval : calcCarrySimilarity (Finset.range 41) (Finset.range 4) = -1/410 := by
    simp only [calcCarrySimilarity, hI, hU, Finset.card_range, hne, if_false]
    norm_num
  exact ⟨Finset.range 41, Finset.range 4, by decide, by decide, by decide,
    by rw [hval]; norm_num, by rw [hval]; norm_num⟩

/-- C5: six compositions with carry set 0 and placements all 1, at minimum
sub-cluster size 5, produce exactly one sub-cluster of size 6 with average
placement 1.0, win rate 100 and top4 rate 100. -/
theorem scenarioA_sub_clusters :
    createSubClusters 5 scenarioA =
      [{ id := 0, carry_set := {0}, compositions := scenarioA, size := 6,
         avg_placement := 1, winrate := 100, top4_rate := 100 }] := by
  have hg : carryGroups scenarioA = [({0}, scenarioA)] := by decide
  have hf : ([(({0} : Finset ℕ), scenarioA)].filter fun p => decide (5 ≤ p.2.length)) =
      [({0}, scenarioA)] := by decide
  have h1 : createSubClusters 5 scenarioA = [mkSubCluster 0 {0} scenarioA] := by
    unfold createSubClusters
    rw [hg, hf]
    rfl
  have hsum : ((scenarioA.map fun c => ((c.placement : ℚ))).sum) = 6 := by
    norm_num [scenarioA, List.range_succ]
  have hlen : scenarioA.length = 6 := by decide
  have hc1 : (scenarioA.countP fun c => decide (c.placement = 1)) = 6 := by decide
  have hc4 : (scenarioA.countP fun c => decide (c.placement ≤ 4)) = 6 := by decide
  have hhead : mkSubCluster 0 {0} scenarioA =
      { id := 0, carry_set := {0}, compositions := scenarioA, size := 6,
        avg_placement := 1, winrate := 100, top4_rate := 100 } := by
    unfold mkSubCluster
    rw [hsum, hlen, hc1, hc4]
    simp only [SubCluster.mk.injEq]
    refine ⟨trivial, trivial, trivial, trivial, ?_, ?_, ?_⟩
    · rw [show ((6 : ℚ)) / ((6 : ℕ) : ℚ) = (((1 : ℤ) : ℚ)) by norm_num, pyRound2_intCast]
      norm_num
    · rw [show (((6 : ℕ) : ℚ)) / ((6 : ℕ) : ℚ) * 100 = (((100 : ℤ) : ℚ)) by norm_num,
        pyRound2_intCast]
      norm_num
    · rw [show (((6 : ℕ) : ℚ)) / ((6 : ℕ) : ℚ) * 100 = (((100 : ℤ) : ℚ)) by norm_num,
        pyRound2_intCast]
      norm_num
  rw [h1, hhead]

/-- C9: the incremental pipeline without force-reclustering, when the store
reports no unclustered match ids, returns the empty-result summary with zero
compositions processed (or the bare-message summary when reading database
statistics fails), for every possible full clustering pipeline: the
clustering steps are never invoked and no error is produced. -/
theorem incremental_no_unclustered (stats : Option DatabaseStats)
    (run_db : Option (List ℕ) → PipelineSummary) :
    run_incremental_clustering_pipeline false [] stats run_db =
      match stats with
      | some db => .emptyWithStats 0 db "No new matches to cluster"
      | none => .emptyNoStats "No new matches to cluster" := by
  cases stats <;> rfl

/-- C1 counterexample: the claim `similarity(A,A) = 1.0 for any non-empty A`
fails at the explicit input `A = range 4`: with 4 shared units the code
applies the flat -0.1 penalty to Jaccard 1, giving 0.9. -/
theorem similarity_self_four_ne_one :
    (Finset.range 4).Nonempty ∧
      calcCarrySimilarity (Finset.range 4) (Finset.range 4) ≠ 1 := by
  refine ⟨⟨0, by decide⟩, ?_⟩
  have hne : ¬(Finset.range 4 = ∅ ∨ Finset.range 4 = ∅) := by decide
  have hval : calcCarrySimilarity (Finset.range 4) (Finset.range 4) = 9/10 := by
    simp only [calcCarrySimilarity, Finset.inter_self, Finset.union_self,
      Finset.card_range, hne, if_false]
    norm_num
  rw [hval]
  norm_num

/-- C1 amended: for every non-empty carry set A, the similarity of A with
itself is 1.0 when A has at most 3 units (Jaccard 1 plus a positive bonus,
clipped at 1.0), and 0.9 when A has 4 or more units (the -0.1 penalty
applies and nothing clips it from below). -/
theorem similarity_self_amended (A : Finset ℕ) (h : A.Nonempty) :
    (A.card ≤ 3 → calcCarrySimilarity A A = 1) ∧
    (4 ≤ A.card → calcCarrySimilarity A A = 9/10) := by
  have hA : ¬(A = ∅ ∨ A = ∅) := by simp [h.ne_empty]
  have hc : A.card ≠ 0 := by simp [Finset.card_eq_zero, h.ne_empty]
  have hcq : ((A.card : ℚ)) ≠ 0 := by exact_mod_cast hc
  have hj : ((A.card : ℚ)) / ((A.card : ℚ)) = 1 := div_self hcq
  simp only [calcCarrySimilarity, Finset.inter_self, Finset.union_self, hA, if_false,
    hc, Nat.pos_of_ne_zero hc, if_true, hj]
  constructor
  · intro h3
    have hcase : A.card = 1 ∨ A.card = 2 ∨ A.card = 3 := by omega
    rcases hcase with h' | h' | h' <;> rw [h'] <;> norm_num
  · intro h4
    rw [if_neg (by omega : ¬(2 ≤ A.card ∧ A.card ≤ 3)),
      if_neg (by omega : ¬(A.card = 1))]
    norm_num

/-- Witness for the amended C1 theorem at two concrete inputs: a singleton
carry set scores 1 against itself, a 4-element one scores 0.9. -/
theorem similarity_self_amended_witness :
    calcCarrySimilarity {0} {0} = 1 ∧
      calcCarrySimilarity (Finset.range 4) (Finset.range 4) = 9/10 :=
  ⟨(similarity_self_amended {0} ⟨0, by decide⟩).1 (by decide),
   (similarity_self_amended (Finset.range 4) ⟨0, by decide⟩).2 (by decide)⟩

/-- C4: the similarity scorer of the code agrees with the specification
formula on every pair of carry sets (0 on empty set or empty intersection,
otherwise Jaccard plus the size-based adjustment clipped at 1.0), and on the
concrete pair of sets sharing 2 of 3 units the score is 2/3 + 0.3 = 29/30. -/
theorem similarity_matches_spec :
    (∀ A B : Finset ℕ, calcCarrySimilarity A B = similaritySpec A B) ∧
      calcCarrySimilarity {0, 1} {0, 1, 2} = 29/30 := by
  constructor
  · intro A B
    by_cases h1 : A = ∅ ∨ B = ∅
    · simp only [calcCarrySimilarity, similaritySpec]
      rw [if_pos h1, if_pos (by tauto)]
    · by_cases h2 : A ∩ B = ∅
      · have hc0 : (A ∩ B).card = 0 := by simp [h2]
        simp only [calcCarrySimilarity, similaritySpec]
        rw [if_neg h1, if_pos hc0, if_pos (by tauto : A = ∅ ∨ B = ∅ ∨ A ∩ B = ∅)]
      · have hc : (A ∩ B).card ≠ 0 := by simp [Finset.card_eq_zero, h2]
        have hu : 0 < (A ∪ B).card :=
          lt_of_lt_of_le (Nat.pos_of_ne_zero hc)
            (Finset.card_le_card Finset.inter_subset_union)
        simp only [calcCarrySimilarity, similaritySpec]
        rw [if_neg h1, if_neg (by tauto : ¬(A = ∅ ∨ B = ∅ ∨ A ∩ B = ∅)),
          if_neg hc, if_pos hu]
        congr 2
        split_ifs <;> first | rfl | omega
  · have hI : ({0, 1} : Finset ℕ) ∩ {0, 1, 2} = {0, 1} := by decide
    have hU : ({0, 1} : Finset ℕ) ∪ {0, 1, 2} = {0, 1, 2} := by decide
    have hne : ¬(({0, 1} : Finset ℕ) = ∅ ∨ ({0, 1, 2} : Finset ℕ) = ∅) := by decide
    have hcI : (({0, 1} : Finset ℕ)).card = 2 := by decide
    have hcU : (({0, 1, 2} : Finset ℕ)).card = 3 := by decide
    simp only [calcCarrySimilarity, hI, hU, hcI, hcU, hne, if_false]
    norm_num

/-- C10: the similarity score always stays strictly above -0.1 and at most
1.0 (the -0.1 penalty is only applied when the intersection is non-empty, so
a strictly positive Jaccard coefficient is added to it), hence the derived
distance `1 - similarity` stays strictly below 1.1. -/
theorem similarity_score_bounds (A B : Finset ℕ) :
    -1/10 < calcCarrySimilarity A B ∧ calcCarrySimilarity A B ≤ 1 ∧
      1 - calcCarrySimilarity A B < 11/10 := by
  have key : -1/10 < calcCarrySimilarity A B ∧ calcCarrySimilarity A B ≤ 1 := by
    by_cases h1 : A = ∅ ∨ B = ∅
    · simp only [calcCarrySimilarity]
      rw [if_pos h1]
      norm_num
    · by_cases h2 : (A ∩ B).card = 0
      · simp only [calcCarrySimilarity]
        rw [if_neg h1, if_pos h2]
        norm_num
      · have hu : 0 < (A ∪ B).card :=
          lt_of_lt_of_le (Nat.pos_of_ne_zero h2)
            (Finset.card_le_card Finset.inter_subset_union)
        have hj : 0 < (((A ∩ B).card : ℚ)) / (((A ∪ B).card : ℚ)) :=
          div_pos (by exact_mod_cast Nat.pos_of_ne_zero h2) (by exact_mod_cast hu)
        simp only [calcCarrySimilarity]
        rw [if_neg h1, if_neg h2, if_pos hu]
        constructor
        · apply lt_min (by norm_num)
          split_ifs <;> linarith
        · exact min_le_left _ _
  exact ⟨key.1, key.2, by linarith [key.1]⟩

/-- C7: within one run the carry sets of the produced sub-clusters are
pairwise distinct, and every member composition of a sub-cluster carries
exactly the sub-cluster's carry set. -/
theorem sub_clusters_exact_carry (minSize : ℕ) (comps : List Composition) :
    ((createSubClusters minSize comps).map SubCluster.carry_set).Nodup ∧
    ∀ sc ∈ createSubClusters minSize comps, ∀ c ∈ sc.compositions,
      c.carries = sc.carry_set := by
  constructor
  · unfold createSubClusters
    rw [List.map_map]
    rw [show (SubCluster.carry_set ∘ fun p : ℕ × (Finset ℕ × List Composition) =>
      mkSubCluster p.1 p.2.1 p.2.2) = (Prod.fst ∘ Prod.snd) from rfl]
    rw [← List.map_map, List.enum_map_snd]
    apply List.Nodup.sublist (List.Sublist.map Prod.fst (List.filter_sublist _))
    unfold carryGroups
    rw [List.map_map]
    rw [show (Prod.fst ∘ fun s : Finset ℕ =>
      (s, comps.filter fun c => decide (c.carries = s))) = id from rfl]
    rw [List.map_id]
    exact distinctCarrySets_nodup comps
  · intro sc hsc c hcm
    rw [(mem_createSubClusters hsc).2.1] at hcm
    exact of_decide_eq_true (List.mem_filter.mp hcm).2

/-- Witness for C7 at a concrete one-composition run with minimum size 1. -/
theorem sub_clusters_exact_carry_witness :
    ((createSubClusters 1 [demoComp]).map SubCluster.carry_set).Nodup ∧
      demoComp.carries = (mkSubCluster 0 {0} [demoComp]).carry_set := by
  have hg : carryGroups [demoComp] = [({0}, [demoComp])] := by decide
  have hf : ([(({0} : Finset ℕ), [demoComp])].filter fun p => decide (1 ≤ p.2.length)) =
      [({0}, [demoComp])] := by decide
  have h1 : createSubClusters 1 [demoComp] = [mkSubCluster 0 {0} [demoComp]] := by
    unfold createSubClusters
    rw [hg, hf]
    rfl
  exact ⟨(sub_clusters_exact_carry 1 [demoComp]).1,
    (sub_clusters_exact_carry 1 [demoComp]).2 (mkSubCluster 0 {0} [demoComp])
      (by rw [h1]; exact List.mem_singleton.mpr rfl) demoComp (by decide)⟩

/-- C8: after sub-cluster assignment on a fresh run, a composition holds a
non-sentinel sub-cluster id only if the group of input compositions sharing
its exact carry set has at least the configured minimum size, and a
composition whose group is below the minimum keeps the sentinel. -/
theorem sub_cluster_id_min_size (minSize : ℕ) (comps : List Composition)
    (hfresh : ∀ c0 ∈ comps, c0.sub_cluster_id = none)
    (c : Composition) (hc : c ∈ assignSubClusterIds minSize comps) :
    (∀ i, c.sub_cluster_id = some i →
        minSize ≤ (comps.filter fun x => decide (x.carries = c.carries)).length) ∧
    ((comps.filter fun x => decide (x.carries = c.carries)).length < minSize →
        c.sub_cluster_id = none) := by
  unfold assignSubClusterIds at hc
  rcases List.mem_map.mp hc with ⟨c0, hc0, rfl⟩
  cases hfind : (createSubClusters minSize comps).find?
      (fun sc => decide (sc.carry_set = c0.carries)) with
  | none =>
    simp only [hfind]
    constructor
    · intro i hi
      rw [hfresh c0 hc0] at hi
      cases hi
    · intro _
      exact hfresh c0 hc0
  | some sc =>
    simp only [hfind]
    have hpb := List.find?_some hfind
    have hsceq : sc.carry_set = c0.carries := of_decide_eq_true hpb
    have hprops := mem_createSubClusters (List.mem_of_find?_eq_some hfind)
    have hlen : minSize ≤ (comps.filter fun x => decide (x.carries = c0.carries)).length := by
      have hx := hprops.2.2
      rw [hprops.2.1, hsceq] at hx
      exact hx
    constructor
    · intro i _
      exact hlen
    · intro hlt
      exact absurd hlen (by omega)

/-- Witness for C8: five identical-carry compositions at minimum size 5. -/
theorem sub_cluster_id_min_size_witness :
    (∀ i, demoAssigned.sub_cluster_id = some i →
        5 ≤ (demoComps.filter fun x => decide (x.carries = demoAssigned.carries)).length) ∧
    ((demoComps.filter fun x => decide (x.carries = demoAssigned.carries)).length < 5 →
        demoAssigned.sub_cluster_id = none) :=
  sub_cluster_id_min_size 5 demoComps (by decide) demoAssigned (by decide)

/-- C6: after main clustering on a fresh run, a composition carries a
non-sentinel main-cluster id only if the merge group of its sub-cluster (the
set of positions holding that label in the flat label list, one entry per
sub-cluster) has at least the configured minimum number of member
sub-clusters, and the recorded sub-cluster-to-main-cluster assignments obey
the same bound. -/
theorem main_cluster_min_group (subClusters : List SubCluster) (labels : List ℕ)
    (minMain : ℕ) (comps : List Composition)
    (hfresh : ∀ c0 ∈ comps, c0.main_cluster_id = none)
    (c : Composition) (hc : c ∈ applyMainClusterIds subClusters labels minMain comps) :
    (∀ m, c.main_cluster_id = some m → minMain ≤ labels.count m) ∧
    ∀ sid m, (sid, m) ∈ mainClusterAssignments subClusters labels minMain →
      minMain ≤ labels.count m := by
  constructor
  · unfold applyMainClusterIds at hc
    rcases List.mem_map.mp hc with ⟨c0, hc0, rfl⟩
    cases hfind : (subClusters.zip labels).find?
        (fun p => decide (c0 ∈ p.1.compositions) && decide (minMain ≤ labels.count p.2)) with
    | none =>
      simp only [hfind]
      intro m hm
      rw [hfresh c0 hc0] at hm
      cases hm
    | some p =>
      simp only [hfind]
      intro m hm
      have hp := List.find?_some hfind
      rw [Bool.and_eq_true] at hp
      have h2 : minMain ≤ labels.count p.2 := of_decide_eq_true hp.2
      have hpm : p.2 = m := by simpa using hm
      rwa [hpm] at h2
  · intro sid m hmem
    unfold mainClusterAssignments at hmem
    rcases List.mem_filterMap.mp hmem with ⟨p, _, hval⟩
    by_cases hcond : minMain ≤ labels.count p.2
    · rw [if_pos hcond] at hval
      have hpm : p.2 = m := (Prod.mk.injEq _ _ _ _ ▸ Option.some.inj hval).2
      rwa [hpm] at hcond
    · rw [if_neg hcond] at hval
      cases hval

/-- Witness for C6: one sub-cluster, label list containing one label 0,
minimum main size 1. -/
theorem main_cluster_min_group_witness :
    (∀ m, demoMainAssigned.main_cluster_id = some m → 1 ≤ [0].count m) ∧
    ∀ sid m, (sid, m) ∈ mainClusterAssignments [demoSubCluster] [0] 1 →
      1 ≤ [0].count m :=
  main_cluster_min_group [demoSubCluster] [0] 1 [demoComp] (by decide)
    demoMainAssigned (by decide)

end TFT
